import Mathlib

/-!
A verification development for the hook-chain repository (Fuabioo/hook-chain).

The development shallowly embeds the chain-execution engine of
`internal/pipeline/merge.go`, the envelope codec of `internal/hook/types.go`,
the `EffectiveOnError` policy of `internal/config/config.go` and the audit
record types of `internal/audit/audit.go`, and proves the behavioural
properties stated about them.

Modelling conventions, used throughout:
* JSON documents are modelled by the inductive type `JVal`.  JSON numbers are
  modelled as integers; no property proved here depends on numeric formatting.
* Go's `json.RawMessage` (a byte slice holding raw JSON) is modelled by `Raw`:
  `Raw.empty` is a nil / length-zero slice, `Raw.good v` is a slice holding
  valid JSON denoting `v`, and `Raw.bad s` is a non-empty slice `s` that is not
  valid JSON.
* Go's `map[string]T` is modelled by an association list together with the
  operations `mget` / `mset`; `json.Unmarshal` into a map keeps the last
  occurrence of a duplicated key, modelled by `gomap`.  Go map iteration order
  is not observable in any property proved here because `json.Marshal` emits
  map keys in sorted order and all statements about emitted objects are
  membership / lookup based.
* String truncation (`TruncateStderr`, the 256-byte cap of
  `extractToolDetail`) slices bytes in Go and characters here; no property
  proved here depends on the distinction.
* Wall-clock fields (`DurationMs`, timestamps) and database identifiers of the
  audit records are omitted: they are not functions of the engine's inputs.
* `json.Unmarshal` of JSON null into a map or a string is a no-op success in
  Go; the codec and the merge model it so.  The one merge case that panics in
  Go (a null base assigned a non-empty patch) is recorded as
  `MergeResult.panic`; the engine embedding, which must stay total, maps that
  branch to the fail-closed deny shape of the adjacent merge-error path.
-/

set_option autoImplicit false

namespace HookChain

/-- A JSON value.  `obj` keeps its fields as written in the document, in
order and possibly with duplicated keys; Go-map semantics are applied by the
functions that consume it. -/
inductive JVal where
  | null
  | bool (b : Bool)
  | num (n : Int)
  | str (s : String)
  | arr (xs : List JVal)
  | obj (fs : List (String × JVal))

mutual

/-- Decidable equality for `JVal` (the derive handler does not support the
nested occurrences of `List`). -/
def decEqJ : (a b : JVal) → Decidable (a = b)
  | .null, .null => isTrue rfl
  | .bool b1, .bool b2 =>
      match decEq b1 b2 with
      | isTrue h => isTrue (by rw [h])
      | isFalse h => isFalse (by simp [h])
  | .num n1, .num n2 =>
      match decEq n1 n2 with
      | isTrue h => isTrue (by rw [h])
      | isFalse h => isFalse (by simp [h])
  | .str s1, .str s2 =>
      match decEq s1 s2 with
      | isTrue h => isTrue (by rw [h])
      | isFalse h => isFalse (by simp [h])
  | .arr xs, .arr ys =>
      match decEqJList xs ys with
      | isTrue h => isTrue (by rw [h])
      | isFalse h => isFalse (by simp [h])
  | .obj fs, .obj gs =>
      match decEqJFields fs gs with
      | isTrue h => isTrue (by rw [h])
      | isFalse h => isFalse (by simp [h])
  | .null, .bool _ | .null, .num _ | .null, .str _ | .null, .arr _ | .null, .obj _ => isFalse nofun
  | .bool _, .null | .bool _, .num _ | .bool _, .str _ | .bool _, .arr _ | .bool _, .obj _ => isFalse nofun
  | .num _, .null | .num _, .bool _ | .num _, .str _ | .num _, .arr _ | .num _, .obj _ => isFalse nofun
  | .str _, .null | .str _, .bool _ | .str _, .num _ | .str _, .arr _ | .str _, .obj _ => isFalse nofun
  | .arr _, .null | .arr _, .bool _ | .arr _, .num _ | .arr _, .str _ | .arr _, .obj _ => isFalse nofun
  | .obj _, .null | .obj _, .bool _ | .obj _, .num _ | .obj _, .str _ | .obj _, .arr _ => isFalse nofun

def decEqJList : (xs ys : List JVal) → Decidable (xs = ys)
  | [], [] => isTrue rfl
  | [], _ :: _ => isFalse nofun
  | _ :: _, [] => isFalse nofun
  | x :: xs, y :: ys =>
      match decEqJ x y with
      | isFalse h => isFalse (by simp [h])
      | isTrue h1 =>
        match decEqJList xs ys with
        | isTrue h2 => isTrue (by rw [h1, h2])
        | isFalse h2 => isFalse (by simp [h2])

def decEqJFields : (fs gs : List (String × JVal)) → Decidable (fs = gs)
  | [], [] => isTrue rfl
  | [], _ :: _ => isFalse nofun
  | _ :: _, [] => isFalse nofun
  | (k1, v1) :: fs, (k2, v2) :: gs =>
      match decEq k1 k2 with
      | isFalse h => isFalse (by simp [h])
      | isTrue hk =>
        match decEqJ v1 v2 with
        | isFalse h => isFalse (by simp [h])
        | isTrue hv =>
          match decEqJFields fs gs with
          | isTrue ht => isTrue (by rw [hk, hv, ht])
          | isFalse ht => isFalse (by simp [ht])

end

instance : DecidableEq JVal := decEqJ

/-- Decidable equality for `Except`, used only to state and check concrete
equations about fallible operations. -/
def decEqExcept {ε α : Type} [DecidableEq ε] [DecidableEq α] :
    (a b : Except ε α) → Decidable (a = b)
  | .ok x, .ok y =>
      match decEq x y with
      | isTrue h => isTrue (by rw [h])
      | isFalse h => isFalse (by simp [h])
  | .error x, .error y =>
      match decEq x y with
      | isTrue h => isTrue (by rw [h])
      | isFalse h => isFalse (by simp [h])
  | .ok _, .error _ => isFalse nofun
  | .error _, .ok _ => isFalse nofun

instance {ε α : Type} [DecidableEq ε] [DecidableEq α] : DecidableEq (Except ε α) :=
  decEqExcept

/-- A Go `json.RawMessage` value: `empty` is nil / length zero (the "no
value" the engine distinguishes from an empty object), `good v` holds valid
JSON denoting `v`, `bad s` holds non-empty bytes `s` that are not valid
JSON. -/
inductive Raw where
  | empty
  | good (v : JVal)
  | bad (s : String)
deriving DecidableEq

/-- Whether a raw message would make `json.Marshal` fail when embedded in a
larger document (`json.Compact` rejects invalid bytes; a nil message is
emitted as `null`). -/
def Raw.isBad : Raw → Bool
  | .bad _ => true
  | _ => false

/-- First-match lookup in an association list.  On the lists produced by
`mset` / `gomap` keys are unique, so this is exactly Go map indexing. -/
def mget {α : Type} : List (String × α) → String → Option α
  | [], _ => none
  | p :: m, k => if p.1 = k then some p.2 else mget m k

/-- Go map assignment `m[k] = v`: every existing binding of `k` is replaced.
(The position of the binding is irrelevant: Go maps are unordered and
`json.Marshal` sorts keys.) -/
def mset {α : Type} : List (String × α) → String → α → List (String × α)
  | [], k, v => [(k, v)]
  | p :: m, k, v => if p.1 = k then mset m k v else p :: mset m k v

/-- The Go map obtained by `json.Unmarshal` of an object's field list: a
duplicated key keeps its last occurrence. -/
def gomap {α : Type} (fs : List (String × α)) : List (String × α) :=
  fs.foldl (fun m p => mset m p.1 p.2) []

/-- mergeFields models the merge loop of `shallowMergeJSON`: the base and
patch objects are unmarshalled into Go maps and every top-level patch key is
assigned into the base map.  (Go iterates the deduplicated patch map in an
unspecified order; folding the patch's field list directly with last-wins
assignment produces the same map, and the association-list order of a merge
result is never observable — emitted JSON sorts keys.) -/
def mergeFields (bs ps : List (String × JVal)) : List (String × JVal) :=
  ps.foldl (fun m p => mset m p.1 p.2) (gomap bs)

/-- The outcome of one `shallowMergeJSON` call: a merged raw message, a
MergeError returned to the caller, or a runtime panic (which aborts the
process rather than returning). -/
inductive MergeResult where
  | ok (r : Raw)
  | err (e : String)
  | panic (msg : String)
deriving DecidableEq

/-- shallowMergeJSON from `internal/pipeline/merge.go`: merges patch keys
into base at the top level.  A nil (length-zero) operand short-circuits,
returning the other operand unvalidated.  Otherwise each operand is
unmarshalled into `map[string]json.RawMessage`, which accepts a JSON object
— and also JSON null, which leaves the Go map nil (a no-op success): a null
patch makes the assignment loop run zero times so the base map is
re-marshalled; a null base with a non-empty patch map panics on the first
assignment to the nil map; `json.Marshal` of a still-nil map emits null.
Only a present operand that is neither an object nor null yields a
MergeError. -/
def shallowMergeJSON (base patch : Raw) : MergeResult :=
  match base, patch with
  | .empty, .empty => .ok .empty
  | .empty, p => .ok p
  | b, .empty => .ok b
  | b, p =>
      match b with
      | .good (.obj bs) =>
          match p with
          | .good (.obj ps) => .ok (.good (.obj (mergeFields bs ps)))
          | .good .null => .ok (.good (.obj (gomap bs)))
          | _ => .err "shallowMergeJSON patch: not a JSON object"
      | .good .null =>
          match p with
          | .good (.obj []) => .ok (.good .null)
          | .good (.obj (_ :: _)) => .panic "assignment to entry in nil map"
          | .good .null => .ok (.good .null)
          | _ => .err "shallowMergeJSON patch: not a JSON object"
      | _ => .err "shallowMergeJSON base: not a JSON object"

/-- Lexicographic comparison of character lists by code point. -/
def strLeAux : List Char → List Char → Bool
  | [], _ => true
  | _ :: _, [] => false
  | a :: as, b :: bs =>
      if a.toNat < b.toNat then true
      else if b.toNat < a.toNat then false
      else strLeAux as bs

/-- A total order on strings modelling the sorted key order of
`json.Marshal`.  (Go orders keys bytewise; any fixed total order yields the
same normalized-equality relation, which is all the engine observes.) -/
def strLe (a b : String) : Bool := strLeAux a.data b.data

/-- Insertion into a key-sorted field list, used to model the sorted key
order of `json.Marshal` on maps. -/
def insertSorted (p : String × JVal) : List (String × JVal) → List (String × JVal)
  | [] => [p]
  | q :: rest => if strLe p.1 q.1 then p :: q :: rest else q :: insertSorted p rest

/-- Sort a field list by key. -/
def sortFields (fs : List (String × JVal)) : List (String × JVal) :=
  fs.foldr insertSorted []

mutual

/-- The value produced by unmarshalling JSON into `any` and marshalling it
again: object keys are deduplicated (last occurrence wins) and emitted in
sorted order, recursively. -/
def normJ : JVal → JVal
  | .null => .null
  | .bool b => .bool b
  | .num n => .num n
  | .str s => .str s
  | .arr xs => .arr (normJList xs)
  | .obj fs => .obj (sortFields (gomap (normJFields fs)))

def normJList : List JVal → List JVal
  | [] => []
  | x :: xs => normJ x :: normJList xs

def normJFields : List (String × JVal) → List (String × JVal)
  | [] => []
  | (k, v) :: fs => (k, normJ v) :: normJFields fs

end

/-- normalizeJSON from `internal/pipeline/merge.go`: re-marshals JSON to
normalize key ordering for comparison.  Length-zero input returns nil;
input that fails to unmarshal is returned unchanged. -/
def normalizeJSON : Raw → Raw
  | .empty => .empty
  | .bad s => .bad s
  | .good v => .good (normJ v)

/-! ## Envelope codec (`internal/hook/types.go`) -/

/-- The Input envelope of `internal/hook/types.go`: known fields extracted
into struct fields, `rawFields` preserving the full original map for
re-serialization. -/
structure Input where
  sessionID : String := ""
  transcriptPath : String := ""
  cwd : String := ""
  permissionMode : String := ""
  hookEventName : String := ""
  toolName : String := ""
  toolUseID : String := ""
  toolInput : Raw := .empty
  rawFields : List (String × Raw) := []
deriving DecidableEq

/-- The bytes handed to `Input.UnmarshalJSON`, as classified by the JSON
parser: either not valid JSON at all, or valid JSON denoting a value. -/
inductive Doc where
  | malformed (s : String)
  | val (v : JVal)
deriving DecidableEq

/-- The Go map obtained by unmarshalling an object's fields into
`map[string]json.RawMessage`: keys deduplicated (last wins), each value a
valid raw sub-message. -/
def gomapRawOf (fs : List (String × JVal)) : List (String × Raw) :=
  (gomap fs).map (fun p => (p.1, Raw.good p.2))

/-- One known-field extraction step of `Input.UnmarshalJSON`:
`if v, ok := raw[k]; ok { json.Unmarshal(v, &field) }`.  An absent key
leaves the field at its zero value `""`; unmarshalling JSON null into a
string is a no-op in Go; any other non-string value is an error. -/
def getStringField (raw : List (String × Raw)) (k : String) : Except String String :=
  match mget raw k with
  | none => .ok ""
  | some (.good (.str s)) => .ok s
  | some (.good .null) => .ok ""
  | some _ => .error ("hook.Input unmarshal " ++ k)

/-- Input.UnmarshalJSON from `internal/hook/types.go`.  The top-level
unmarshal into `map[string]json.RawMessage` fails on malformed JSON and on
any non-object, non-null top level; JSON null leaves the map nil (Go's
null-into-map convention), so a `null` document decodes to the zero
envelope.  Known fields are then extracted; `tool_input` is kept as a raw
message. -/
def Input.UnmarshalJSON (d : Doc) : Except String Input :=
  match d with
  | .malformed _ => .error "hook.Input unmarshal: invalid JSON"
  | .val .null => .ok { rawFields := [] }
  | .val (.obj fs) => do
      let raw := gomapRawOf fs
      let sid ← getStringField raw "session_id"
      let tp ← getStringField raw "transcript_path"
      let cwd ← getStringField raw "cwd"
      let pm ← getStringField raw "permission_mode"
      let hen ← getStringField raw "hook_event_name"
      let tn ← getStringField raw "tool_name"
      let tuid ← getStringField raw "tool_use_id"
      let ti := (mget raw "tool_input").getD .empty
      .ok { sessionID := sid, transcriptPath := tp, cwd := cwd,
            permissionMode := pm, hookEventName := hen, toolName := tn,
            toolUseID := tuid, toolInput := ti, rawFields := raw }
  | .val _ => .error "hook.Input unmarshal: top level is not a JSON object"

/-- Conditional map assignment, used to model the `if field != zero`
overlay steps of `Input.MarshalJSON`. -/
def setIf (m : List (String × Raw)) (cond : Bool) (k : String) (v : Raw) :
    List (String × Raw) :=
  if cond then mset m k v else m

/-- The map marshalled by `Input.MarshalJSON`: all raw fields first
(preserving unknowns), then every known non-default field overlaid. -/
def encodeMap (inp : Input) : List (String × Raw) :=
  let out := inp.rawFields
  let out := setIf out (inp.sessionID ≠ "") "session_id" (.good (.str inp.sessionID))
  let out := setIf out (inp.transcriptPath ≠ "") "transcript_path" (.good (.str inp.transcriptPath))
  let out := setIf out (inp.cwd ≠ "") "cwd" (.good (.str inp.cwd))
  let out := setIf out (inp.permissionMode ≠ "") "permission_mode" (.good (.str inp.permissionMode))
  let out := setIf out (inp.hookEventName ≠ "") "hook_event_name" (.good (.str inp.hookEventName))
  let out := setIf out (inp.toolName ≠ "") "tool_name" (.good (.str inp.toolName))
  let out := setIf out (inp.toolUseID ≠ "") "tool_use_id" (.good (.str inp.toolUseID))
  let out := setIf out (inp.toolInput ≠ .empty) "tool_input" inp.toolInput
  out

/-- Whether `json.Marshal` of the envelope succeeds: marshalling the final
map fails exactly when some raw value in it is invalid JSON. -/
def inputMarshalOK (inp : Input) : Bool :=
  (encodeMap inp).all (fun p => !p.2.isBad)

/-- Input.MarshalJSON from `internal/hook/types.go`: emits the overlay map
(whose keys `json.Marshal` writes in sorted order), or an error if some raw
value is invalid JSON. -/
def Input.MarshalJSON (inp : Input) : Except String (List (String × Raw)) :=
  if inputMarshalOK inp then .ok (encodeMap inp)
  else .error "hook.Input marshal: invalid raw message"

/-- Input.WithToolInput from `internal/hook/types.go`: an independent copy
whose `ToolInput` and captured `tool_input` key are replaced. -/
def Input.WithToolInput (inp : Input) (merged : Raw) : Input :=
  { inp with toolInput := merged,
             rawFields := mset inp.rawFields "tool_input" merged }

/-- HookSpecificOutput from `internal/hook/types.go`. -/
structure HookSpecificOutput where
  hookEventName : String := ""
  permissionDecision : String := ""
  permissionDecisionReason : String := ""
  updatedInput : Raw := .empty
  additionalContext : String := ""
deriving DecidableEq

/-- Output from `internal/hook/types.go`.  `continueFlag` and
`suppressOutput` model the optional `continue` / `suppressOutput` pointer
fields (`continue` is a reserved word in Lean). -/
structure Output where
  hookSpecificOutput : HookSpecificOutput := {}
  continueFlag : Option Bool := none
  suppressOutput : Option Bool := none
  systemMessage : String := ""
deriving DecidableEq

/-! ## Hook configuration (`internal/config/config.go`) -/

/-- HookEntry from `internal/config/config.go`: a single hook command. -/
structure HookEntry where
  name : String := ""
  command : String := ""
  args : List String := []
  timeout : Int := 0
  env : List String := []
  onError : String := ""
deriving DecidableEq

/-- HookEntry.EffectiveOnError: the on_error policy, defaulting to
"deny". -/
def HookEntry.EffectiveOnError (h : HookEntry) : String :=
  if h.onError = "" then "deny" else h.onError

/-! ## Audit records (`internal/audit/audit.go`) -/

/-- TruncateStderr from `internal/audit/audit.go`: truncates `s` to `max`
bytes, appending "..." if truncated.  (`max ≤ 0` in Go corresponds to
`max = 0` here; the engine always passes 512.) -/
def TruncateStderr (s : String) (max : Nat) : String :=
  if max = 0 then ""
  else if s.length ≤ max then s
  else if max ≤ 3 then s.take max
  else s.take (max - 3) ++ "..."

/-- HookResult from `internal/audit/audit.go`: one hook execution within a
chain (database id and wall-clock duration omitted). -/
structure HookResult where
  hookIndex : Nat
  hookName : String
  exitCode : Int
  outcome : String
  stderr : String := ""
deriving DecidableEq

/-- ChainExecution from `internal/audit/audit.go`: one `pipeline.Run`
invocation (database id, timestamp and wall-clock duration omitted). -/
structure ChainExecution where
  eventName : String
  toolName : String
  toolDetail : String
  chainLen : Nat
  outcome : String
  reason : String
  sessionID : String
  hooks : List HookResult
deriving DecidableEq

/-! ## Execution engine (`internal/pipeline/merge.go`) -/

/-- countLines from `internal/pipeline/merge.go`: an empty string has 0
lines, otherwise one more line than it has newline characters. -/
def countLines (s : String) : Nat :=
  if s = "" then 0 else s.toList.count '\n' + 1

/-- Unmarshalling a raw tool-input message into a one-string-field struct,
as `extractToolDetail` does: succeeds on an object (ignoring other keys;
an absent key leaves the zero value) and on null; the field must be a
string or null. -/
def jStrField (r : Raw) (k : String) : Option String :=
  match r with
  | .good (.obj fs) =>
      match mget (gomap fs) k with
      | none => some ""
      | some (.str s) => some s
      | some .null => some ""
      | some _ => none
  | .good .null => some ""
  | _ => none

/-- Go's `%q` verb applied to a hook name in the engine's diagnostics
(escaping of exotic characters inside the name is not modelled). -/
def goQuote (s : String) : String := "\"" ++ s ++ "\""

/-- extractToolDetail from `internal/pipeline/merge.go`: a human-readable
summary of tool_input for audit display, empty for unsupported tools or on
any unmarshal error (fail-silent), capped at 256 bytes. -/
def extractToolDetail (input : Input) : String :=
  if input.toolInput = .empty then ""
  else
    let detail : Option String :=
      match input.toolName with
      | "Bash" => jStrField input.toolInput "command"
      | "Read" => jStrField input.toolInput "file_path"
      | "Write" => do
          let fp ← jStrField input.toolInput "file_path"
          let content ← jStrField input.toolInput "content"
          pure (fp ++ " (+" ++ toString (countLines content) ++ " lines)")
      | "Edit" => do
          let fp ← jStrField input.toolInput "file_path"
          let olds ← jStrField input.toolInput "old_string"
          let news ← jStrField input.toolInput "new_string"
          pure (fp ++ " (-" ++ toString (countLines olds) ++ "/+" ++
                toString (countLines news) ++ " lines)")
      | _ => some ""
    match detail with
    | none => ""
    | some d => if d.length > 256 then d.take 256 else d

/-- Result from `internal/pipeline/merge.go`: the final outcome of
executing a hook chain.  `output` holds the Output value whose JSON
encoding is written to stdout (`none` = nothing to write). -/
structure Result where
  exitCode : Int
  output : Option Output := none
deriving DecidableEq

/-- denyResult from `internal/pipeline/merge.go`: a deny Result with exit
code 2.  (`json.Marshal` of this string-only envelope cannot fail, so the
Go fallback branch is dead code.) -/
def denyResult (eventName reason : String) : Result :=
  { exitCode := 2,
    output := some { hookSpecificOutput :=
      { hookEventName := eventName, permissionDecision := "deny",
        permissionDecisionReason := reason } } }

/-- buildDecisionResult from `internal/pipeline/merge.go`: a Result for a
specific permission decision; "deny" maps to exit code 2, anything else to
exit code 0. -/
def buildDecisionResult (eventName decision reason : String) : Result :=
  { exitCode := if decision = "deny" then 2 else 0,
    output := some { hookSpecificOutput :=
      { hookEventName := eventName, permissionDecision := decision,
        permissionDecisionReason := reason } } }

/-- recordAudit from `internal/pipeline/merge.go`: sends a chain execution
record to the auditor.  The auditor is modelled by its success predicate
`ChainExecution → Bool`; its return value is logged and discarded, never
affecting the pipeline.  The function returns the list of records
attempted (empty for a nil auditor, a singleton otherwise). -/
def recordAudit (auditor : Option (ChainExecution → Bool)) (input : Input)
    (chainLen : Nat) (outcome reason : String)
    (hookResults : List HookResult) : List ChainExecution :=
  match auditor with
  | none => []
  | some f =>
      let entry : ChainExecution :=
        { eventName := input.hookEventName, toolName := input.toolName,
          toolDetail := extractToolDetail input, chainLen := chainLen,
          outcome := outcome, reason := reason,
          sessionID := input.sessionID, hooks := hookResults }
      let _ := f entry
      [entry]

/-- Positional constructor for `HookResult`, used by the engine's audit
bookkeeping (index, name, exit code, outcome, truncated stderr). -/
def mkHookResult (i : Nat) (name : String) (ec : Int) (outcome sderr : String) :
    HookResult :=
  { hookIndex := i, hookName := name, exitCode := ec, outcome := outcome,
    stderr := sderr }

/-- The hook's stdout bytes after `bytes.TrimSpace`, classified by
`json.Unmarshal` into `hook.Output`: empty (or whitespace-only), valid JSON
decoding to an Output value, or invalid (`invalid` carries the unmarshal
error text). -/
inductive Stdout where
  | empty
  | parsed (o : Output)
  | invalid (msg : String)
deriving DecidableEq

/-- runner.Result: what a successfully launched hook process returned. -/
structure RunnerResult where
  exitCode : Int
  stdout : Stdout := .empty
  stderr : String := ""
deriving DecidableEq

/-- The Runner collaborator's answer for one invocation: a process result,
or a launch-class error (binary missing, spawn failure, timeout). -/
inductive RunnerResponse where
  | ok (r : RunnerResult)
  | launchError (msg : String)
deriving DecidableEq

/-- The observable outcome of `Run`: the returned Result, the audit records
attempted via the Auditor, and the indices at which the Runner collaborator
was invoked (in order). -/
structure RunOutput where
  result : Result
  audits : List ChainExecution
  calls : List Nat
deriving DecidableEq

/-- The hook loop of `Run` from `internal/pipeline/merge.go`, processing
the remaining `hooks` starting at index `i` with the accumulated tool-input
state, the collected context fragments and the per-hook audit results so
far.  `ρ` is the Runner collaborator (the response may depend on the
sub-envelope it is invoked with) and `recAud` is `recordAudit` partially
applied to the auditor, the input envelope and the chain length. -/
def runFrom (input : Input) (originalToolInput : Raw)
    (ρ : Nat → Input → RunnerResponse)
    (recAud : String → String → List HookResult → List ChainExecution) :
    List HookEntry → Nat → Raw → List String → List HookResult → RunOutput
  | [], _i, accumulated, contextParts, hookResults =>
      -- After all hooks: determine if anything changed.
      let changed : Bool :=
        decide (¬ normalizeJSON accumulated = normalizeJSON originalToolInput)
      let hasContext : Bool := decide (¬ contextParts = [])
      if !changed && !hasContext then
        { result := { exitCode := 0, output := none },
          audits := recAud "allow" "" hookResults, calls := [] }
      else
        let out : Output :=
          { hookSpecificOutput :=
            { hookEventName := input.hookEventName,
              updatedInput := if changed then accumulated else .empty,
              additionalContext :=
                if hasContext then String.intercalate "\n" contextParts
                else "" } }
        if out.hookSpecificOutput.updatedInput.isBad then
          { result := denyResult input.hookEventName
              "hook-chain: failed to marshal final output",
            audits := recAud "error" "marshal final output" hookResults,
            calls := [] }
        else
          { result := { exitCode := 0, output := some out },
            audits := recAud "allow" "" hookResults, calls := [] }
  | h :: rest, i, accumulated, contextParts, hookResults =>
      -- Build sub-hook input with accumulated toolInput.
      let subInput := input.WithToolInput accumulated
      if !inputMarshalOK subInput then
        { result := denyResult input.hookEventName
            ("hook-chain: failed to marshal input for hook " ++ goQuote h.name),
          audits := recAud "error"
            ("marshal input for hook " ++ goQuote h.name) hookResults,
          calls := [] }
      else
        match ρ i subInput with
        | .launchError e =>
            -- Runner-level error (binary not found, timeout, etc.).
            if h.EffectiveOnError = "skip" then
              let tail := runFrom input originalToolInput ρ recAud rest (i + 1)
                accumulated contextParts
                (hookResults ++ [mkHookResult i h.name (-1) "skip" (TruncateStderr e 512)])
              { tail with calls := i :: tail.calls }
            else
              { result := denyResult input.hookEventName
                  ("hook-chain: hook " ++ goQuote h.name ++ " failed: " ++ e),
                audits := recAud "error"
                  ("hook " ++ goQuote h.name ++ " runner error: " ++ e)
                  (hookResults ++ [mkHookResult i h.name (-1) "error" (TruncateStderr e 512)]),
                calls := [i] }
        | .ok runRes =>
            if runRes.exitCode = 2 then
              -- Exit code 2 always denies, regardless of on_error.
              let reason :=
                if runRes.stderr ≠ "" then runRes.stderr
                else "hook " ++ goQuote h.name ++ " denied (exit 2)"
              { result := denyResult input.hookEventName reason,
                audits := recAud "deny" reason
                  (hookResults ++ [mkHookResult i h.name 2 "deny" (TruncateStderr runRes.stderr 512)]),
                calls := [i] }
            else if runRes.exitCode ≠ 0 then
              -- Non-zero exit (not 2).
              if h.EffectiveOnError = "skip" then
                let tail := runFrom input originalToolInput ρ recAud rest (i + 1)
                  accumulated contextParts
                  (hookResults ++ [mkHookResult i h.name runRes.exitCode "skip" (TruncateStderr runRes.stderr 512)])
                { tail with calls := i :: tail.calls }
              else
                let reason :=
                  if runRes.stderr ≠ "" then runRes.stderr
                  else "hook " ++ goQuote h.name ++ " failed (exit " ++
                    toString runRes.exitCode ++ ")"
                { result := denyResult input.hookEventName reason,
                  audits := recAud "deny" reason
                    (hookResults ++ [mkHookResult i h.name runRes.exitCode "deny" (TruncateStderr runRes.stderr 512)]),
                  calls := [i] }
            else
              match runRes.stdout with
              | .empty =>
                  -- Exit 0, empty stdout: passthrough.
                  let tail := runFrom input originalToolInput ρ recAud rest (i + 1)
                    accumulated contextParts
                    (hookResults ++ [mkHookResult i h.name 0 "pass" ""])
                  { tail with calls := i :: tail.calls }
              | .invalid msg =>
                  -- Exit 0 but stdout does not parse as an Output envelope.
                  if h.EffectiveOnError = "skip" then
                    let tail := runFrom input originalToolInput ρ recAud rest (i + 1)
                      accumulated contextParts
                      (hookResults ++ [mkHookResult i h.name 0 "skip" (TruncateStderr msg 512)])
                    { tail with calls := i :: tail.calls }
                  else
                    { result := denyResult input.hookEventName
                        ("hook-chain: hook " ++ goQuote h.name ++
                          " returned invalid JSON: " ++ msg),
                      audits := recAud "error"
                        ("hook " ++ goQuote h.name ++ " invalid JSON: " ++ msg)
                        (hookResults ++ [mkHookResult i h.name 0 "error" (TruncateStderr msg 512)]),
                      calls := [i] }
              | .parsed output =>
                  let hso := output.hookSpecificOutput
                  if hso.permissionDecision = "deny" then
                    -- Explicit deny always short-circuits.
                    { result := buildDecisionResult input.hookEventName "deny"
                        hso.permissionDecisionReason,
                      audits := recAud "deny" hso.permissionDecisionReason
                        (hookResults ++ [mkHookResult i h.name 0 "deny" ""]),
                      calls := [i] }
                  else if hso.permissionDecision = "ask" then
                    -- Ask escalation always short-circuits.
                    { result := buildDecisionResult input.hookEventName "ask"
                        hso.permissionDecisionReason,
                      audits := recAud "ask" hso.permissionDecisionReason
                        (hookResults ++ [mkHookResult i h.name 0 "ask" ""]),
                      calls := [i] }
                  else
                    if hso.updatedInput ≠ .empty then
                      match shallowMergeJSON accumulated hso.updatedInput with
                      | .err e =>
                          { result := denyResult input.hookEventName
                              ("hook-chain: failed to merge updatedInput from hook " ++
                                goQuote h.name ++ ": " ++ e),
                            audits := recAud "error"
                              ("merge updatedInput from hook " ++ goQuote h.name ++
                                ": " ++ e)
                              (hookResults ++ [mkHookResult i h.name 0 "error" (TruncateStderr e 512)]),
                            calls := [i] }
                      | .panic msg =>
                          -- A nil-map assignment panic (null base, non-empty
                          -- object patch) aborts the Go process: the runtime
                          -- exits with status 2 and writes nothing to stdout,
                          -- so Run itself never returns.  A crash is not
                          -- representable in this total state-machine
                          -- embedding; the branch follows the adjacent
                          -- merge-error path (fail-closed deny), the closest
                          -- in-protocol behaviour.
                          { result := denyResult input.hookEventName
                              ("hook-chain: failed to merge updatedInput from hook " ++
                                goQuote h.name ++ ": " ++ msg),
                            audits := recAud "error"
                              ("merge updatedInput from hook " ++ goQuote h.name ++
                                ": " ++ msg)
                              (hookResults ++ [mkHookResult i h.name 0 "error" (TruncateStderr msg 512)]),
                            calls := [i] }
                      | .ok merged =>
                          -- hookOutcome = "merge"; collect additionalContext.
                          let contextParts2 :=
                            if hso.additionalContext ≠ "" then
                              contextParts ++ [hso.additionalContext]
                            else contextParts
                          let tail := runFrom input originalToolInput ρ recAud rest
                            (i + 1) merged contextParts2
                            (hookResults ++ [mkHookResult i h.name 0 "merge" ""])
                          { tail with calls := i :: tail.calls }
                    else
                      -- No updatedInput; collect additionalContext.
                      let hookOutcome :=
                        if hso.additionalContext ≠ "" then "context" else "pass"
                      let contextParts2 :=
                        if hso.additionalContext ≠ "" then
                          contextParts ++ [hso.additionalContext]
                        else contextParts
                      let tail := runFrom input originalToolInput ρ recAud rest
                        (i + 1) accumulated contextParts2
                        (hookResults ++ [mkHookResult i h.name 0 hookOutcome ""])
                      { tail with calls := i :: tail.calls }

/-- Run from `internal/pipeline/merge.go`: executes hooks sequentially,
threading accumulated toolInput state through the chain.  The auditor is
modelled by an optional success predicate; the Runner by a function from
invocation index and sub-envelope to a response. -/
def Run (input : Input) (hooks : List HookEntry)
    (ρ : Nat → Input → RunnerResponse)
    (auditor : Option (ChainExecution → Bool)) : RunOutput :=
  match hooks with
  | [] =>
      { result := { exitCode := 0, output := none },
        audits := recordAudit auditor input 0 "allow" "" [], calls := [] }
  | _ =>
      runFrom input input.toolInput ρ
        (recordAudit auditor input hooks.length)
        hooks 0 input.toolInput [] []

/-! ## Statement-side helper definitions -/

/-- Left-biased choice on options, used to state the shallow-union property
of the merge. -/
def optOr {α : Type} : Option α → Option α → Option α
  | some v, _ => some v
  | none, b => b

/-- Whether a raw message unmarshals into `map[string]json.RawMessage`
without error: a JSON object, or JSON null (which leaves the map nil). -/
def isObjOrNullRaw : Raw → Bool
  | .good (.obj _) => true
  | .good .null => true
  | _ => false

/-- Whether a JSON value is an object or null (the two top-level shapes
`json.Unmarshal` accepts for a `map[string]json.RawMessage` target). -/
def isObjOrNull : JVal → Bool
  | .obj _ => true
  | .null => true
  | _ => false

/-- Whether a JSON value unmarshals into a Go string without error (strings
do; null is a no-op; everything else errors). -/
def strOrNull : JVal → Bool
  | .str _ => true
  | .null => true
  | _ => false

/-- The known envelope fields extracted into typed string slots. -/
def knownStringKeys : List String :=
  ["session_id", "transcript_path", "cwd", "permission_mode",
   "hook_event_name", "tool_name", "tool_use_id"]

/-- Whether every known string field present in the document has a type its
slot accepts. -/
def knownFieldsOK (fs : List (String × JVal)) : Bool :=
  knownStringKeys.all fun k =>
    match mget (gomap fs) k with
    | none => true
    | some v => strOrNull v

/-- The top-level keys of a document as received (before Go-map
deduplication). -/
def docTopKeys : Doc → List String
  | .val (.obj fs) => fs.map Prod.fst
  | _ => []

/-- Prefixing one Runner invocation to the trace of a run, used to state
that a skipped hook consumes its invocation and the fold continues at the
next hook. -/
def addCall (i : Nat) (out : RunOutput) : RunOutput :=
  { out with calls := i :: out.calls }

/-! ## Association-list (Go map) lemmas -/

theorem mget_mset_self {α : Type} (m : List (String × α)) (k : String) (v : α) :
    mget (mset m k v) k = some v := by
  induction m with
  | nil => simp [mset, mget]
  | cons p t ih => by_cases h : p.1 = k <;> simp [mset, h, mget, ih]

theorem mget_mset_ne {α : Type} (m : List (String × α)) (k k2 : String) (v : α)
    (h : k2 ≠ k) : mget (mset m k2 v) k = mget m k := by
  induction m with
  | nil => simp [mset, mget, h]
  | cons p t ih =>
      by_cases hp : p.1 = k2
      · simp [mset, hp, mget, ih, h]
      · simp [mset, hp, mget, ih]

theorem mget_foldl_mset {α : Type} (ps : List (String × α)) :
    ∀ (m : List (String × α)) (k : String),
      mget (ps.foldl (fun m p => mset m p.1 p.2) m) k
        = optOr (mget (gomap ps) k) (mget m k) := by
  induction ps with
  | nil => intro m k; simp [gomap, mget, optOr]
  | cons p t ih =>
      intro m k
      have h1 := ih (mset m p.1 p.2) k
      have h2 := ih (mset [] p.1 p.2) k
      simp only [gomap, List.foldl_cons] at h1 h2 ⊢
      rw [h1, h2]
      cases hA : mget (t.foldl (fun m p => mset m p.1 p.2) []) k with
      | some v => simp [optOr, gomap, hA]
      | none =>
          simp only [optOr, gomap, hA]
          by_cases hk : p.1 = k
          · subst hk; rw [mget_mset_self, mget_mset_self]
          · rw [mget_mset_ne _ _ _ _ hk, mget_mset_ne _ _ _ _ hk]
            simp [mget, optOr]

theorem mget_mergeFields (bs ps : List (String × JVal)) (k : String) :
    mget (mergeFields bs ps) k = optOr (mget (gomap ps) k) (mget (gomap bs) k) := by
  unfold mergeFields
  exact mget_foldl_mset ps (gomap bs) k

theorem mget_isSome_iff {α : Type} (m : List (String × α)) (k : String) :
    (mget m k).isSome = true ↔ k ∈ m.map Prod.fst := by
  induction m with
  | nil => simp [mget]
  | cons p t ih =>
      by_cases h : p.1 = k
      · simp [mget, h]
      · have hk : ¬ k = p.1 := fun hh => h hh.symm
        simp [mget, h, ih, hk]

theorem mget_mset_isSome {α : Type} (m : List (String × α)) (k k2 : String) (v : α) :
    (mget (mset m k2 v) k).isSome = true ↔ k2 = k ∨ (mget m k).isSome = true := by
  by_cases h : k2 = k
  · subst h; simp [mget_mset_self]
  · rw [mget_mset_ne _ _ _ _ h]; simp [h]

theorem mem_keys_mset {α : Type} (m : List (String × α)) (k k2 : String) (v : α)
    (hk : k ∈ m.map Prod.fst) : k ∈ (mset m k2 v).map Prod.fst := by
  rw [← mget_isSome_iff] at hk ⊢
  rw [mget_mset_isSome]
  exact Or.inr hk

theorem mem_keys_setIf (m : List (String × Raw)) (c : Bool) (k k2 : String) (v : Raw)
    (hk : k ∈ m.map Prod.fst) : k ∈ (setIf m c k2 v).map Prod.fst := by
  cases c
  · simpa [setIf] using hk
  · simpa [setIf] using mem_keys_mset m k k2 v hk

theorem mget_foldl_isSome {α : Type} (fs : List (String × α)) :
    ∀ (m : List (String × α)) (k : String),
      (mget (fs.foldl (fun m p => mset m p.1 p.2) m) k).isSome = true ↔
        (mget m k).isSome = true ∨ k ∈ fs.map Prod.fst := by
  induction fs with
  | nil => intro m k; simp
  | cons p t ih =>
      intro m k
      simp only [List.foldl_cons, List.map_cons, List.mem_cons]
      rw [ih (mset m p.1 p.2) k, mget_mset_isSome]
      constructor
      · rintro (⟨h | h⟩ | h)
        · exact Or.inr (Or.inl h.symm)
        · exact Or.inl h
        · exact Or.inr (Or.inr h)
      · rintro (h | h | h)
        · exact Or.inl (Or.inr h)
        · exact Or.inl (Or.inl h.symm)
        · exact Or.inr h

theorem mem_keys_gomap {α : Type} (fs : List (String × α)) (k : String) :
    k ∈ (gomap fs).map Prod.fst ↔ k ∈ fs.map Prod.fst := by
  rw [← mget_isSome_iff]
  unfold gomap
  rw [mget_foldl_isSome]
  simp [mget]

theorem mget_map_snd {α β : Type} (m : List (String × α)) (f : α → β) (k : String) :
    mget (m.map (fun p => (p.1, f p.2))) k = (mget m k).map f := by
  induction m with
  | nil => simp [mget]
  | cons p t ih => by_cases h : p.1 = k <;> simp [mget, h, ih]

theorem mget_gomapRawOf (fs : List (String × JVal)) (k : String) :
    mget (gomapRawOf fs) k = (mget (gomap fs) k).map Raw.good :=
  mget_map_snd (gomap fs) Raw.good k

theorem keys_gomapRawOf (fs : List (String × JVal)) :
    (gomapRawOf fs).map Prod.fst = (gomap fs).map Prod.fst := by
  simp [gomapRawOf]

theorem mget_mem {α : Type} (m : List (String × α)) (k : String) (v : α)
    (h : mget m k = some v) : (k, v) ∈ m := by
  induction m with
  | nil => simp [mget] at h
  | cons p t ih =>
      obtain ⟨pk, pv⟩ := p
      by_cases hp : pk = k
      · subst hp
        simp only [mget, if_pos] at h
        cases h
        exact List.mem_cons_self _ _
      · rw [mget, if_neg hp] at h
        exact List.mem_cons_of_mem _ (ih h)

theorem all_mset {α : Type} (P : String × α → Bool) (m : List (String × α))
    (k : String) (v : α) (hm : m.all P = true) (hv : P (k, v) = true) :
    (mset m k v).all P = true := by
  induction m with
  | nil => simp [mset, hv]
  | cons p t ih =>
      simp only [List.all_cons, Bool.and_eq_true] at hm
      by_cases h : p.1 = k <;> simp [mset, h, ih hm.2, hm.1, hv]

theorem all_setIf (P : String × Raw → Bool) (m : List (String × Raw)) (c : Bool)
    (k : String) (v : Raw) (hm : m.all P = true) (hv : P (k, v) = true) :
    (setIf m c k v).all P = true := by
  cases c <;> simp [setIf, hm, all_mset P m k v hm hv]

/-! ## Merge engine claims -/

/-- C4: `shallowMergeJSON` satisfies the spec's identities — merging two
absent operands yields the distinguished "no value" (distinct from the
empty object), merging with one absent operand returns the other operand
unchanged — and for two present JSON objects the result is the shallow
union in which every top-level patch key overwrites the same base key
regardless of the value's shape, nested content never being recursively
combined (the patch value is taken wholesale). -/
theorem merge_identities_shallow_union :
    shallowMergeJSON .empty .empty = .ok .empty
    ∧ Raw.empty ≠ .good (.obj [])
    ∧ (∀ b : Raw, shallowMergeJSON b .empty = .ok b)
    ∧ (∀ p : Raw, shallowMergeJSON .empty p = .ok p)
    ∧ (∀ bs ps, shallowMergeJSON (.good (.obj bs)) (.good (.obj ps))
        = .ok (.good (.obj (mergeFields bs ps))))
    ∧ (∀ bs ps k, mget (mergeFields bs ps) k
        = optOr (mget (gomap ps) k) (mget (gomap bs) k)) := by
  refine ⟨rfl, by simp, ?_, ?_, fun bs ps => rfl, fun bs ps k => mget_mergeFields bs ps k⟩
  · intro b; cases b <;> rfl
  · intro p; cases p <;> rfl

/-- C3, counterexample: `shallowMergeJSON` can succeed with a present
operand that is not a JSON object, contradicting the claim that it fails
with a MergeError whenever either present operand is not an object.  Two
such inputs: an absent base with a scalar patch returns the scalar
unvalidated, and an object base with a present JSON-null patch succeeds
because Go's `json.Unmarshal` of null into a map is a no-op (the patch
loop runs zero times). -/
theorem merge_nonobject_operand_succeeds :
    shallowMergeJSON .empty (.good (.num 5)) = .ok (.good (.num 5)) ∧
    (¬ ∃ e, shallowMergeJSON .empty (.good (.num 5)) = .err e) ∧
    shallowMergeJSON (.good (.obj [("k", .num 1)])) (.good .null) =
      .ok (.good (.obj [("k", .num 1)])) ∧
    (¬ ∃ e, shallowMergeJSON (.good (.obj [("k", .num 1)])) (.good .null) = .err e) := by
  refine ⟨rfl, ?_, rfl, ?_⟩
  · rintro ⟨e, he⟩
    simp [shallowMergeJSON] at he
  · rintro ⟨e, he⟩
    simp [shallowMergeJSON] at he

/-- C3 (amended): when BOTH operands are present, `shallowMergeJSON`
returns a MergeError exactly when at least one of them is neither a JSON
object nor JSON null (an absent operand short-circuits before any
validation of the other).  A present JSON-null operand is accepted as a
nil Go map: an object base with a null patch re-marshals the base map,
null merged with null yields null, while a null base with a non-empty
object patch panics on the nil-map assignment — aborting the process
rather than returning a MergeError.  Inside the engine a returned
MergeError always surfaces as a Deny of the whole chain with exit code 2,
short-circuiting the fold — never silently swallowed. -/
theorem merge_error_conditions_and_fail_closed :
    (∀ b p : Raw, b ≠ .empty → p ≠ .empty →
      ((∃ e, shallowMergeJSON b p = .err e) ↔
        ¬(isObjOrNullRaw b = true ∧ isObjOrNullRaw p = true)))
    ∧ (∀ bs, shallowMergeJSON (.good (.obj bs)) (.good .null) =
        .ok (.good (.obj (gomap bs))))
    ∧ shallowMergeJSON (.good .null) (.good .null) = .ok (.good .null)
    ∧ (∀ q ps, shallowMergeJSON (.good .null) (.good (.obj (q :: ps))) =
        .panic "assignment to entry in nil map")
    ∧ (∀ (input : Input) (orig : Raw) (ρ : Nat → Input → RunnerResponse)
        (recAud : String → String → List HookResult → List ChainExecution)
        (h : HookEntry) (rest : List HookEntry) (i : Nat) (acc : Raw)
        (ctx : List String) (hrs : List HookResult) (runRes : RunnerResult)
        (o : Output) (e : String),
        inputMarshalOK (input.WithToolInput acc) = true →
        ρ i (input.WithToolInput acc) = .ok runRes →
        runRes.exitCode = 0 →
        runRes.stdout = .parsed o →
        o.hookSpecificOutput.permissionDecision ≠ "deny" →
        o.hookSpecificOutput.permissionDecision ≠ "ask" →
        o.hookSpecificOutput.updatedInput ≠ .empty →
        shallowMergeJSON acc o.hookSpecificOutput.updatedInput = .err e →
        (runFrom input orig ρ recAud (h :: rest) i acc ctx hrs).result =
          denyResult input.hookEventName
            ("hook-chain: failed to merge updatedInput from hook " ++
              goQuote h.name ++ ": " ++ e) ∧
        (runFrom input orig ρ recAud (h :: rest) i acc ctx hrs).result.exitCode = 2 ∧
        (runFrom input orig ρ recAud (h :: rest) i acc ctx hrs).calls = [i]) := by
  refine ⟨?_, fun bs => rfl, rfl, fun q ps => rfl, ?_⟩
  · intro b p hb hp
    cases b with
    | empty => exact absurd rfl hb
    | bad s =>
        cases p with
        | empty => exact absurd rfl hp
        | good w => cases w <;> simp [shallowMergeJSON, isObjOrNullRaw]
        | bad t => simp [shallowMergeJSON, isObjOrNullRaw]
    | good v =>
        cases p with
        | empty => exact absurd rfl hp
        | bad t => cases v <;> simp [shallowMergeJSON, isObjOrNullRaw]
        | good w =>
            cases v with
            | null =>
                cases w with
                | null => simp [shallowMergeJSON, isObjOrNullRaw]
                | obj fs => cases fs <;> simp [shallowMergeJSON, isObjOrNullRaw]
                | bool b2 => simp [shallowMergeJSON, isObjOrNullRaw]
                | num n => simp [shallowMergeJSON, isObjOrNullRaw]
                | str s2 => simp [shallowMergeJSON, isObjOrNullRaw]
                | arr xs => simp [shallowMergeJSON, isObjOrNullRaw]
            | obj bs => cases w <;> simp [shallowMergeJSON, isObjOrNullRaw]
            | bool b2 => simp [shallowMergeJSON, isObjOrNullRaw]
            | num n => simp [shallowMergeJSON, isObjOrNullRaw]
            | str s2 => simp [shallowMergeJSON, isObjOrNullRaw]
            | arr xs => simp [shallowMergeJSON, isObjOrNullRaw]
  · intro input orig ρ recAud h rest i acc ctx hrs runRes o e
      hm hρ hex hout hnd hna hui hmerge
    have hex2 : ¬ runRes.exitCode = 2 := by rw [hex]; decide
    simp only [runFrom, hm, hρ, hex, hex2, hout, hnd, hna, hui, hmerge,
      Bool.not_true, if_false, if_true]
    simp [denyResult, hui]

/-- Witness for C3 (amended): a present non-object base with a present
object patch fails, and inside the engine a hook that patches a scalar
accumulated state denies the chain at that hook. -/
theorem merge_error_conditions_and_fail_closed_witness :
    ((∃ e, shallowMergeJSON (.good (.num 1)) (.good (.obj [])) = .err e) ↔
      ¬(isObjOrNullRaw (.good (.num 1)) = true ∧ isObjOrNullRaw (.good (.obj [])) = true)) ∧
    ((runFrom {} .empty (fun _ _ => .ok { exitCode := 0, stdout := .parsed { hookSpecificOutput := { updatedInput := .good (.obj [("k", .num 3)]) } } }) (fun _ _ _ => []) [{ name := "m" }] 0 (.good (.num 7)) [] []).result =
        denyResult "" ("hook-chain: failed to merge updatedInput from hook " ++ goQuote "m" ++ ": " ++ "shallowMergeJSON base: not a JSON object") ∧
     (runFrom {} .empty (fun _ _ => .ok { exitCode := 0, stdout := .parsed { hookSpecificOutput := { updatedInput := .good (.obj [("k", .num 3)]) } } }) (fun _ _ _ => []) [{ name := "m" }] 0 (.good (.num 7)) [] []).result.exitCode = 2 ∧
     (runFrom {} .empty (fun _ _ => .ok { exitCode := 0, stdout := .parsed { hookSpecificOutput := { updatedInput := .good (.obj [("k", .num 3)]) } } }) (fun _ _ _ => []) [{ name := "m" }] 0 (.good (.num 7)) [] []).calls = [0]) :=
  ⟨merge_error_conditions_and_fail_closed.1 (.good (.num 1)) (.good (.obj []))
      (by decide) (by decide),
   merge_error_conditions_and_fail_closed.2.2.2.2 {} .empty
      (fun _ _ => .ok { exitCode := 0, stdout := .parsed { hookSpecificOutput := { updatedInput := .good (.obj [("k", .num 3)]) } } })
      (fun _ _ _ => []) { name := "m" } [] 0 (.good (.num 7)) [] []
      { exitCode := 0, stdout := .parsed { hookSpecificOutput := { updatedInput := .good (.obj [("k", .num 3)]) } } }
      { hookSpecificOutput := { updatedInput := .good (.obj [("k", .num 3)]) } }
      "shallowMergeJSON base: not a JSON object"
      (by decide) rfl rfl rfl (by decide) (by decide) (by decide) (by decide)⟩

/-! ## Envelope codec claims -/

theorem decode_ok_fields (fs : List (String × JVal)) (inp : Input)
    (h : Input.UnmarshalJSON (.val (.obj fs)) = .ok inp) :
    inp.rawFields = gomapRawOf fs ∧
    inp.toolInput = (mget (gomapRawOf fs) "tool_input").getD .empty := by
  simp only [Input.UnmarshalJSON, bind, Except.bind] at h
  cases h1 : getStringField (gomapRawOf fs) "session_id" with
  | error e => simp [h1] at h
  | ok s1 =>
  simp only [h1] at h
  cases h2 : getStringField (gomapRawOf fs) "transcript_path" with
  | error e => simp [h2] at h
  | ok s2 =>
  simp only [h2] at h
  cases h3 : getStringField (gomapRawOf fs) "cwd" with
  | error e => simp [h3] at h
  | ok s3 =>
  simp only [h3] at h
  cases h4 : getStringField (gomapRawOf fs) "permission_mode" with
  | error e => simp [h4] at h
  | ok s4 =>
  simp only [h4] at h
  cases h5 : getStringField (gomapRawOf fs) "hook_event_name" with
  | error e => simp [h5] at h
  | ok s5 =>
  simp only [h5] at h
  cases h6 : getStringField (gomapRawOf fs) "tool_name" with
  | error e => simp [h6] at h
  | ok s6 =>
  simp only [h6] at h
  cases h7 : getStringField (gomapRawOf fs) "tool_use_id" with
  | error e => simp [h7] at h
  | ok s7 =>
  simp only [h7] at h
  simp only [Except.ok.injEq] at h
  rw [← h]
  exact ⟨rfl, rfl⟩

theorem all_good_gomapRawOf (fs : List (String × JVal)) :
    (gomapRawOf fs).all (fun p => !p.2.isBad) = true := by
  simp only [gomapRawOf, List.all_eq_true]
  intro p hp
  obtain ⟨q, _, rfl⟩ := List.mem_map.mp hp
  simp [Raw.isBad]

/-- C7: every input envelope accepted by Decode re-encodes successfully,
and the emitted JSON object contains every top-level key originally present
in the input document — including keys not modeled as known fields —
independently of key order. -/
theorem decode_encode_retains_keys :
    ∀ (d : Doc) (inp : Input), Input.UnmarshalJSON d = .ok inp →
      inputMarshalOK inp = true ∧
      ∀ k, k ∈ docTopKeys d → k ∈ (encodeMap inp).map Prod.fst := by
  intro d inp h
  match d with
  | .malformed s => simp [Input.UnmarshalJSON] at h
  | .val .null =>
      simp only [Input.UnmarshalJSON, Except.ok.injEq] at h
      constructor
      · rw [← h]; decide
      · intro k hk; simp [docTopKeys] at hk
  | .val (.bool b) => simp [Input.UnmarshalJSON] at h
  | .val (.num n) => simp [Input.UnmarshalJSON] at h
  | .val (.str s) => simp [Input.UnmarshalJSON] at h
  | .val (.arr xs) => simp [Input.UnmarshalJSON] at h
  | .val (.obj fs) =>
      obtain ⟨hraw, hti⟩ := decode_ok_fields fs inp h
      have hrawAll : inp.rawFields.all (fun p => !p.2.isBad) = true := by
        rw [hraw]; exact all_good_gomapRawOf fs
      have htiBad : inp.toolInput.isBad = false := by
        rw [hti, mget_gomapRawOf]
        cases mget (gomap fs) "tool_input" <;> simp [Raw.isBad]
      constructor
      · simp only [inputMarshalOK, encodeMap]
        apply all_setIf _ _ _ _ _ ?_ (by simp [htiBad])
        apply all_setIf _ _ _ _ _ ?_ (by simp [Raw.isBad])
        apply all_setIf _ _ _ _ _ ?_ (by simp [Raw.isBad])
        apply all_setIf _ _ _ _ _ ?_ (by simp [Raw.isBad])
        apply all_setIf _ _ _ _ _ ?_ (by simp [Raw.isBad])
        apply all_setIf _ _ _ _ _ ?_ (by simp [Raw.isBad])
        apply all_setIf _ _ _ _ _ ?_ (by simp [Raw.isBad])
        apply all_setIf _ _ _ _ _ ?_ (by simp [Raw.isBad])
        exact hrawAll
      · intro k hk
        simp only [docTopKeys] at hk
        have h1 : k ∈ inp.rawFields.map Prod.fst := by
          rw [hraw, keys_gomapRawOf, mem_keys_gomap]; exact hk
        simp only [encodeMap]
        apply mem_keys_setIf
        apply mem_keys_setIf
        apply mem_keys_setIf
        apply mem_keys_setIf
        apply mem_keys_setIf
        apply mem_keys_setIf
        apply mem_keys_setIf
        apply mem_keys_setIf
        exact h1

/-- Witness for C7, at a document holding one unknown key and one known
key. -/
theorem decode_encode_retains_keys_witness :
    inputMarshalOK ({ sessionID := "s", rawFields := [("unknownField", .good (.num 1)), ("session_id", .good (.str "s"))] } : Input) = true ∧
    ∀ k, k ∈ docTopKeys (.val (.obj [("unknownField", .num 1), ("session_id", .str "s")])) →
      k ∈ (encodeMap ({ sessionID := "s", rawFields := [("unknownField", .good (.num 1)), ("session_id", .good (.str "s"))] } : Input)).map Prod.fst :=
  decode_encode_retains_keys
    (.val (.obj [("unknownField", .num 1), ("session_id", .str "s")]))
    ({ sessionID := "s", rawFields := [("unknownField", .good (.num 1)), ("session_id", .good (.str "s"))] } : Input)
    (by decide)

/-- C8, counterexample: the document whose top level is JSON null is not a
JSON object, yet Decode succeeds (returning the zero envelope) instead of
failing with a parse error — Go's `json.Unmarshal` leaves a map nil on a
null document. -/
theorem decode_null_top_level_succeeds :
    Input.UnmarshalJSON (.val .null) = .ok { rawFields := [] } ∧
    ¬ ∃ e, Input.UnmarshalJSON (.val .null) = .error e := by
  refine ⟨rfl, ?_⟩
  rintro ⟨e, he⟩
  simp [Input.UnmarshalJSON] at he

theorem getStringField_ok (fs : List (String × JVal)) (k : String)
    (hk : (match mget (gomap fs) k with
           | none => true
           | some v => strOrNull v) = true) :
    ∃ s, getStringField (gomapRawOf fs) k = .ok s := by
  unfold getStringField
  rw [mget_gomapRawOf]
  cases hv : mget (gomap fs) k with
  | none => exact ⟨"", rfl⟩
  | some v =>
      rw [hv] at hk
      cases v <;> simp_all [strOrNull]

/-- C8 (amended): Decode fails with a parse error on malformed JSON and on
every top level that is neither a JSON object nor JSON null (a null top
level decodes as the zero envelope, Go's null-into-map convention); on a
JSON-object top level whose known fields have their expected types Decode
succeeds and captures every top-level key — unknown ones included —
verbatim in the raw-field bag (up to Go-map last-wins deduplication). -/
theorem decode_errors_and_unknown_key_capture :
    (∀ s, ∃ e, Input.UnmarshalJSON (.malformed s) = .error e)
    ∧ (∀ v : JVal, isObjOrNull v = false →
        ∃ e, Input.UnmarshalJSON (.val v) = .error e)
    ∧ (∀ fs, knownFieldsOK fs = true →
        ∃ inp, Input.UnmarshalJSON (.val (.obj fs)) = .ok inp ∧
          inp.rawFields = gomapRawOf fs ∧
          ∀ k v, mget (gomap fs) k = some v →
            mget inp.rawFields k = some (.good v)) := by
  refine ⟨fun s => ⟨_, rfl⟩, ?_, ?_⟩
  · intro v hv
    cases v <;> simp_all [isObjOrNull] <;> exact ⟨_, rfl⟩
  · intro fs hok
    simp only [knownFieldsOK, knownStringKeys, List.all_cons, List.all_nil,
      Bool.and_eq_true] at hok
    obtain ⟨k1, h1⟩ := getStringField_ok fs "session_id" hok.1
    obtain ⟨k2, h2⟩ := getStringField_ok fs "transcript_path" hok.2.1
    obtain ⟨k3, h3⟩ := getStringField_ok fs "cwd" hok.2.2.1
    obtain ⟨k4, h4⟩ := getStringField_ok fs "permission_mode" hok.2.2.2.1
    obtain ⟨k5, h5⟩ := getStringField_ok fs "hook_event_name" hok.2.2.2.2.1
    obtain ⟨k6, h6⟩ := getStringField_ok fs "tool_name" hok.2.2.2.2.2.1
    obtain ⟨k7, h7⟩ := getStringField_ok fs "tool_use_id" hok.2.2.2.2.2.2.1
    refine ⟨{ sessionID := k1, transcriptPath := k2, cwd := k3, permissionMode := k4, hookEventName := k5, toolName := k6, toolUseID := k7, toolInput := (mget (gomapRawOf fs) "tool_input").getD .empty, rawFields := gomapRawOf fs }, ?_, rfl, ?_⟩
    · simp only [Input.UnmarshalJSON, bind, Except.bind, h1, h2, h3, h4, h5,
        h6, h7]
    · intro k v hv
      rw [mget_gomapRawOf, hv]
      rfl

/-- Witness for C8 (amended): the three parts applied at concrete
documents. -/
theorem decode_errors_and_unknown_key_capture_witness :
    (∃ e, Input.UnmarshalJSON (.malformed "not json") = .error e)
    ∧ (∃ e, Input.UnmarshalJSON (.val (.num 5)) = .error e)
    ∧ (∃ inp, Input.UnmarshalJSON (.val (.obj [("session_id", .str "s"), ("mystery", .bool true)])) = .ok inp ∧
        inp.rawFields = gomapRawOf [("session_id", .str "s"), ("mystery", .bool true)] ∧
        ∀ k v, mget (gomap [("session_id", .str "s"), ("mystery", .bool true)]) k = some v →
          mget inp.rawFields k = some (.good v)) :=
  ⟨decode_errors_and_unknown_key_capture.1 "not json",
   decode_errors_and_unknown_key_capture.2.1 (.num 5) (by decide),
   decode_errors_and_unknown_key_capture.2.2
     [("session_id", .str "s"), ("mystery", .bool true)] (by decide)⟩

/-! ## Execution engine claims -/

/-- C1: whenever the Runner answers with exit code 2 at any point of the
fold, the engine terminates immediately with the deny result (exit code 2)
regardless of the hook's on-error policy (no hypothesis on `h.onError`),
invokes no further hook, and the deny reason is the hook's stderr when
non-empty and otherwise the generic text naming the hook as denied with
exit 2. -/
theorem exit2_denies_unconditionally :
    ∀ (input : Input) (orig : Raw) (ρ : Nat → Input → RunnerResponse)
      (recAud : String → String → List HookResult → List ChainExecution)
      (h : HookEntry) (rest : List HookEntry) (i : Nat) (acc : Raw)
      (ctx : List String) (hrs : List HookResult) (runRes : RunnerResult),
      inputMarshalOK (input.WithToolInput acc) = true →
      ρ i (input.WithToolInput acc) = .ok runRes →
      runRes.exitCode = 2 →
      (runFrom input orig ρ recAud (h :: rest) i acc ctx hrs).result =
        denyResult input.hookEventName
          (if runRes.stderr ≠ "" then runRes.stderr
           else "hook " ++ goQuote h.name ++ " denied (exit 2)") ∧
      (runFrom input orig ρ recAud (h :: rest) i acc ctx hrs).result.exitCode = 2 ∧
      (runFrom input orig ρ recAud (h :: rest) i acc ctx hrs).calls = [i] := by
  intro input orig ρ recAud h rest i acc ctx hrs runRes hm hρ hex
  simp only [runFrom, hm, hρ, hex, Bool.not_true, if_false, if_true]
  simp [denyResult]

/-- Witness for C1: a single hook with `onError = skip` whose process exits
2 with stderr "no". -/
theorem exit2_denies_unconditionally_witness :
    (runFrom {} .empty (fun _ _ => .ok { exitCode := 2, stderr := "no" })
        (fun _ _ _ => []) [{ name := "guard", onError := "skip" }] 0 .empty [] []).result =
      denyResult "" "no" ∧
    (runFrom {} .empty (fun _ _ => .ok { exitCode := 2, stderr := "no" })
        (fun _ _ _ => []) [{ name := "guard", onError := "skip" }] 0 .empty [] []).result.exitCode = 2 ∧
    (runFrom {} .empty (fun _ _ => .ok { exitCode := 2, stderr := "no" })
        (fun _ _ _ => []) [{ name := "guard", onError := "skip" }] 0 .empty [] []).calls = [0] :=
  exit2_denies_unconditionally {} .empty
    (fun _ _ => .ok { exitCode := 2, stderr := "no" }) (fun _ _ _ => [])
    { name := "guard", onError := "skip" } [] 0 .empty [] []
    { exitCode := 2, stderr := "no" } (by decide) rfl rfl

/-- C2: when a hook exits 0 and its stdout decodes to an Output envelope
whose permission decision is "deny" or "ask", the engine short-circuits (no
further hook is invoked) with the corresponding decision body whose reason
is the envelope's decision reason; "deny" yields exit code 2 and "ask"
yields exit code 0, regardless of the hook's on-error policy. -/
theorem explicit_decision_short_circuits :
    ∀ (input : Input) (orig : Raw) (ρ : Nat → Input → RunnerResponse)
      (recAud : String → String → List HookResult → List ChainExecution)
      (h : HookEntry) (rest : List HookEntry) (i : Nat) (acc : Raw)
      (ctx : List String) (hrs : List HookResult) (runRes : RunnerResult)
      (o : Output),
      inputMarshalOK (input.WithToolInput acc) = true →
      ρ i (input.WithToolInput acc) = .ok runRes →
      runRes.exitCode = 0 →
      runRes.stdout = .parsed o →
      (o.hookSpecificOutput.permissionDecision = "deny" ∨
       o.hookSpecificOutput.permissionDecision = "ask") →
      (runFrom input orig ρ recAud (h :: rest) i acc ctx hrs).result =
        buildDecisionResult input.hookEventName
          o.hookSpecificOutput.permissionDecision
          o.hookSpecificOutput.permissionDecisionReason ∧
      (o.hookSpecificOutput.permissionDecision = "deny" →
        (runFrom input orig ρ recAud (h :: rest) i acc ctx hrs).result.exitCode = 2) ∧
      (o.hookSpecificOutput.permissionDecision = "ask" →
        (runFrom input orig ρ recAud (h :: rest) i acc ctx hrs).result.exitCode = 0) ∧
      (runFrom input orig ρ recAud (h :: rest) i acc ctx hrs).calls = [i] := by
  intro input orig ρ recAud h rest i acc ctx hrs runRes o hm hρ hex hout hdec
  have hex2 : ¬ runRes.exitCode = 2 := by rw [hex]; decide
  rcases hdec with hd | hd
  · simp only [runFrom, hm, hρ, hex, hex2, hout, hd, Bool.not_true, if_false,
      if_true]
    simp [buildDecisionResult, hd]
  · simp only [runFrom, hm, hρ, hex, hex2, hout, hd, Bool.not_true, if_false,
      if_true]
    simp [buildDecisionResult, hd]

/-- Witness for C2: a single hook emitting an explicit deny decision. -/
theorem explicit_decision_short_circuits_witness :
    (runFrom {} .empty
        (fun _ _ => .ok { exitCode := 0, stdout := .parsed { hookSpecificOutput := { permissionDecision := "deny", permissionDecisionReason := "nope" } } })
        (fun _ _ _ => []) [{ name := "denier", onError := "skip" }] 0 .empty [] []).result =
      buildDecisionResult "" "deny" "nope" ∧
    ("deny" = "deny" →
      (runFrom {} .empty
        (fun _ _ => .ok { exitCode := 0, stdout := .parsed { hookSpecificOutput := { permissionDecision := "deny", permissionDecisionReason := "nope" } } })
        (fun _ _ _ => []) [{ name := "denier", onError := "skip" }] 0 .empty [] []).result.exitCode = 2) ∧
    ("deny" = "ask" →
      (runFrom {} .empty
        (fun _ _ => .ok { exitCode := 0, stdout := .parsed { hookSpecificOutput := { permissionDecision := "deny", permissionDecisionReason := "nope" } } })
        (fun _ _ _ => []) [{ name := "denier", onError := "skip" }] 0 .empty [] []).result.exitCode = 0) ∧
    (runFrom {} .empty
        (fun _ _ => .ok { exitCode := 0, stdout := .parsed { hookSpecificOutput := { permissionDecision := "deny", permissionDecisionReason := "nope" } } })
        (fun _ _ _ => []) [{ name := "denier", onError := "skip" }] 0 .empty [] []).calls = [0] :=
  explicit_decision_short_circuits {} .empty
    (fun _ _ => .ok { exitCode := 0, stdout := .parsed { hookSpecificOutput := { permissionDecision := "deny", permissionDecisionReason := "nope" } } })
    (fun _ _ _ => []) { name := "denier", onError := "skip" } [] 0 .empty [] []
    { exitCode := 0, stdout := .parsed { hookSpecificOutput := { permissionDecision := "deny", permissionDecisionReason := "nope" } } }
    { hookSpecificOutput := { permissionDecision := "deny", permissionDecisionReason := "nope" } }
    (by decide) rfl rfl rfl (Or.inl rfl)

/-- C10: when a hook short-circuits the fold with an explicit deny or ask
decision, the emitted Output envelope carries only the event name, the
permission decision and the decision reason: for every accumulated state
and every collected context fragment list, the emitted body has an empty
updated-input, an empty additional-context and no other field set. -/
theorem decision_output_frame :
    ∀ (input : Input) (orig : Raw) (ρ : Nat → Input → RunnerResponse)
      (recAud : String → String → List HookResult → List ChainExecution)
      (h : HookEntry) (rest : List HookEntry) (i : Nat) (acc : Raw)
      (ctx : List String) (hrs : List HookResult) (runRes : RunnerResult)
      (o : Output),
      inputMarshalOK (input.WithToolInput acc) = true →
      ρ i (input.WithToolInput acc) = .ok runRes →
      runRes.exitCode = 0 →
      runRes.stdout = .parsed o →
      (o.hookSpecificOutput.permissionDecision = "deny" ∨
       o.hookSpecificOutput.permissionDecision = "ask") →
      ∃ body : Output,
        (runFrom input orig ρ recAud (h :: rest) i acc ctx hrs).result.output
          = some body ∧
        body.hookSpecificOutput.hookEventName = input.hookEventName ∧
        body.hookSpecificOutput.permissionDecision
          = o.hookSpecificOutput.permissionDecision ∧
        body.hookSpecificOutput.permissionDecisionReason
          = o.hookSpecificOutput.permissionDecisionReason ∧
        body.hookSpecificOutput.updatedInput = .empty ∧
        body.hookSpecificOutput.additionalContext = "" ∧
        body.continueFlag = none ∧
        body.suppressOutput = none ∧
        body.systemMessage = "" := by
  intro input orig ρ recAud h rest i acc ctx hrs runRes o hm hρ hex hout hdec
  have hex2 : ¬ runRes.exitCode = 2 := by rw [hex]; decide
  rcases hdec with hd | hd
  · refine ⟨{ hookSpecificOutput := { hookEventName := input.hookEventName, permissionDecision := o.hookSpecificOutput.permissionDecision, permissionDecisionReason := o.hookSpecificOutput.permissionDecisionReason } }, ?_, by simp, by simp, by simp, by simp, by simp, by simp, by simp, by simp⟩
    simp only [runFrom, hm, hρ, hex, hex2, hout, hd, Bool.not_true, if_false,
      if_true]
    simp [buildDecisionResult, hd]
  · refine ⟨{ hookSpecificOutput := { hookEventName := input.hookEventName, permissionDecision := o.hookSpecificOutput.permissionDecision, permissionDecisionReason := o.hookSpecificOutput.permissionDecisionReason } }, ?_, by simp, by simp, by simp, by simp, by simp, by simp, by simp, by simp⟩
    simp only [runFrom, hm, hρ, hex, hex2, hout, hd, Bool.not_true, if_false,
      if_true]
    simp [buildDecisionResult, hd]

/-- Witness for C10: an ask decision after an earlier hook merged state and
added context — the emitted body still omits both. -/
theorem decision_output_frame_witness :
    ∃ body : Output,
      (runFrom {} .empty
        (fun _ _ => .ok { exitCode := 0, stdout := .parsed { hookSpecificOutput := { permissionDecision := "ask", permissionDecisionReason := "check" } } })
        (fun _ _ _ => []) [{ name := "asker" }] 3
        (.good (.obj [("command", .str "merged-earlier")])) ["ctx-earlier"] []).result.output = some body ∧
      body.hookSpecificOutput.hookEventName = Input.hookEventName {} ∧
      body.hookSpecificOutput.permissionDecision = "ask" ∧
      body.hookSpecificOutput.permissionDecisionReason = "check" ∧
      body.hookSpecificOutput.updatedInput = .empty ∧
      body.hookSpecificOutput.additionalContext = "" ∧
      body.continueFlag = none ∧
      body.suppressOutput = none ∧
      body.systemMessage = "" :=
  decision_output_frame {} .empty
    (fun _ _ => .ok { exitCode := 0, stdout := .parsed { hookSpecificOutput := { permissionDecision := "ask", permissionDecisionReason := "check" } } })
    (fun _ _ _ => []) { name := "asker" } [] 3
    (.good (.obj [("command", .str "merged-earlier")])) ["ctx-earlier"] []
    { exitCode := 0, stdout := .parsed { hookSpecificOutput := { permissionDecision := "ask", permissionDecisionReason := "check" } } }
    { hookSpecificOutput := { permissionDecision := "ask", permissionDecisionReason := "check" } }
    (by decide) rfl rfl rfl (Or.inr rfl)

/-- C5: when the fold completes without short-circuit, the engine compares
the final accumulated state to the original tool-input under structural
(key-order-independent) normalization: if unchanged and no context fragment
was collected, the result is exit 0 with no output body (the same Result an
empty chain produces); otherwise the emitted Output carries the event name
copied from the input, an updated-input equal to the accumulated state
exactly when it changed, and an additional-context equal to the collected
fragments joined by newline exactly when at least one was collected.  (The
accumulated state of a real run is never malformed bytes, which the
hypothesis records.) -/
theorem fold_completion_output :
    ∀ (input : Input) (orig : Raw) (ρ : Nat → Input → RunnerResponse)
      (recAud : String → String → List HookResult → List ChainExecution)
      (i : Nat) (acc : Raw) (ctx : List String) (hrs : List HookResult),
      (∀ s, acc ≠ .bad s) →
      ((normalizeJSON acc = normalizeJSON orig ∧ ctx = []) →
        (runFrom input orig ρ recAud [] i acc ctx hrs).result =
          { exitCode := 0, output := none } ∧
        (runFrom input orig ρ recAud [] i acc ctx hrs).result =
          (Run input [] ρ none).result) ∧
      (¬(normalizeJSON acc = normalizeJSON orig ∧ ctx = []) →
        (runFrom input orig ρ recAud [] i acc ctx hrs).result =
          { exitCode := 0, output := some { hookSpecificOutput := { hookEventName := input.hookEventName, updatedInput := if normalizeJSON acc = normalizeJSON orig then .empty else acc, additionalContext := if ctx = [] then "" else String.intercalate "\n" ctx } } }) := by
  intro input orig ρ recAud i acc ctx hrs hbad
  constructor
  · rintro ⟨h1, h2⟩
    constructor
    · simp only [runFrom]
      simp [h1, h2]
    · simp only [runFrom, Run]
      simp [h1, h2]
  · intro hn
    have hb : acc.isBad = false := by
      cases acc with
      | bad s => exact absurd rfl (hbad s)
      | empty => rfl
      | good v => rfl
    by_cases h1 : normalizeJSON acc = normalizeJSON orig
    · have h2 : ctx ≠ [] := fun hc => hn ⟨h1, hc⟩
      simp only [runFrom]
      simp [h1, h2, Raw.isBad]
    · simp only [runFrom]
      simp [h1, hb]

/-- Witness for C5: a changed accumulated state with one context
fragment. -/
theorem fold_completion_output_witness :
    ((normalizeJSON (.good (.obj [("a", .num 1)])) = normalizeJSON .empty ∧ (["c1", "c2"] : List String) = []) →
      (runFrom {} .empty (fun _ _ => .ok { exitCode := 0 }) (fun _ _ _ => []) [] 2 (.good (.obj [("a", .num 1)])) ["c1", "c2"] []).result =
        { exitCode := 0, output := none } ∧
      (runFrom {} .empty (fun _ _ => .ok { exitCode := 0 }) (fun _ _ _ => []) [] 2 (.good (.obj [("a", .num 1)])) ["c1", "c2"] []).result =
        (Run {} [] (fun _ _ => .ok { exitCode := 0 }) none).result) ∧
    (¬(normalizeJSON (.good (.obj [("a", .num 1)])) = normalizeJSON .empty ∧ (["c1", "c2"] : List String) = []) →
      (runFrom {} .empty (fun _ _ => .ok { exitCode := 0 }) (fun _ _ _ => []) [] 2 (.good (.obj [("a", .num 1)])) ["c1", "c2"] []).result =
        { exitCode := 0, output := some { hookSpecificOutput := { hookEventName := Input.hookEventName {}, updatedInput := if normalizeJSON (.good (.obj [("a", .num 1)])) = normalizeJSON .empty then .empty else .good (.obj [("a", .num 1)]), additionalContext := if (["c1", "c2"] : List String) = [] then "" else String.intercalate "\n" ["c1", "c2"] } } }) :=
  fold_completion_output {} .empty (fun _ _ => .ok { exitCode := 0 })
    (fun _ _ _ => []) 2 (.good (.obj [("a", .num 1)])) ["c1", "c2"] []
    (fun s => by simp)

/-- C6: for a hook whose effective on-error policy is "skip", a launch-class
Runner error, a non-zero non-2 exit code, or an exit-0 stdout that fails to
decode as an Output envelope each cause the hook to be recorded as skipped
while the fold continues at the next hook with the accumulated state and
the context list unchanged; and the same policy never absorbs an exit-code-2
result or an explicit deny/ask decision, which still short-circuit. -/
theorem onerror_skip_behavior :
    ∀ (input : Input) (orig : Raw) (ρ : Nat → Input → RunnerResponse)
      (recAud : String → String → List HookResult → List ChainExecution)
      (h : HookEntry) (rest : List HookEntry) (i : Nat) (acc : Raw)
      (ctx : List String) (hrs : List HookResult),
      inputMarshalOK (input.WithToolInput acc) = true →
      h.EffectiveOnError = "skip" →
      (∀ e, ρ i (input.WithToolInput acc) = .launchError e →
        runFrom input orig ρ recAud (h :: rest) i acc ctx hrs =
          addCall i (runFrom input orig ρ recAud rest (i + 1) acc ctx
            (hrs ++ [mkHookResult i h.name (-1) "skip" (TruncateStderr e 512)]))) ∧
      (∀ runRes : RunnerResult, ρ i (input.WithToolInput acc) = .ok runRes →
        runRes.exitCode ≠ 0 → runRes.exitCode ≠ 2 →
        runFrom input orig ρ recAud (h :: rest) i acc ctx hrs =
          addCall i (runFrom input orig ρ recAud rest (i + 1) acc ctx
            (hrs ++ [mkHookResult i h.name runRes.exitCode "skip" (TruncateStderr runRes.stderr 512)]))) ∧
      (∀ (runRes : RunnerResult) (msg : String),
        ρ i (input.WithToolInput acc) = .ok runRes →
        runRes.exitCode = 0 → runRes.stdout = .invalid msg →
        runFrom input orig ρ recAud (h :: rest) i acc ctx hrs =
          addCall i (runFrom input orig ρ recAud rest (i + 1) acc ctx
            (hrs ++ [mkHookResult i h.name 0 "skip" (TruncateStderr msg 512)]))) ∧
      (∀ runRes : RunnerResult, ρ i (input.WithToolInput acc) = .ok runRes →
        runRes.exitCode = 2 →
        (runFrom input orig ρ recAud (h :: rest) i acc ctx hrs).result.exitCode = 2 ∧
        (runFrom input orig ρ recAud (h :: rest) i acc ctx hrs).calls = [i]) ∧
      (∀ (runRes : RunnerResult) (o : Output),
        ρ i (input.WithToolInput acc) = .ok runRes →
        runRes.exitCode = 0 → runRes.stdout = .parsed o →
        o.hookSpecificOutput.permissionDecision = "deny" →
        (runFrom input orig ρ recAud (h :: rest) i acc ctx hrs).result.exitCode = 2 ∧
        (runFrom input orig ρ recAud (h :: rest) i acc ctx hrs).calls = [i]) ∧
      (∀ (runRes : RunnerResult) (o : Output),
        ρ i (input.WithToolInput acc) = .ok runRes →
        runRes.exitCode = 0 → runRes.stdout = .parsed o →
        o.hookSpecificOutput.permissionDecision = "ask" →
        (runFrom input orig ρ recAud (h :: rest) i acc ctx hrs).result =
          buildDecisionResult input.hookEventName "ask"
            o.hookSpecificOutput.permissionDecisionReason ∧
        (runFrom input orig ρ recAud (h :: rest) i acc ctx hrs).calls = [i]) := by
  intro input orig ρ recAud h rest i acc ctx hrs hm hskip
  refine ⟨?_, ?_, ?_, ?_, ?_, ?_⟩
  · intro e hρ
    simp only [runFrom, hm, hρ, hskip, Bool.not_true, if_false, if_true]
    simp [addCall]
  · intro runRes hρ hz h2
    simp only [runFrom, hm, hρ, hskip, h2, hz, Bool.not_true, if_false, if_true]
    simp [addCall, hz, h2]
  · intro runRes msg hρ hz hinv
    have h2 : ¬ runRes.exitCode = 2 := by rw [hz]; decide
    simp only [runFrom, hm, hρ, hskip, hz, h2, hinv, Bool.not_true, if_false, if_true]
    simp [addCall]
  · intro runRes hρ h2
    simp only [runFrom, hm, hρ, h2, Bool.not_true, if_false, if_true]
    simp [denyResult]
  · intro runRes o hρ hz hout hd
    have h2 : ¬ runRes.exitCode = 2 := by rw [hz]; decide
    simp only [runFrom, hm, hρ, hz, h2, hout, hd, Bool.not_true, if_false, if_true]
    simp [buildDecisionResult]
  · intro runRes o hρ hz hout hd
    have h2 : ¬ runRes.exitCode = 2 := by rw [hz]; decide
    simp only [runFrom, hm, hρ, hz, h2, hout, hd, Bool.not_true, if_false, if_true]
    simp [buildDecisionResult, hd]

/-- Witness for C6: a skip-policy hook hit by a launch error continues to
the next hook, and the same hook answered with exit code 2 still denies. -/
theorem onerror_skip_behavior_witness :
    (runFrom {} .empty (fun _ _ => .launchError "binary not found") (fun _ _ _ => []) [{ name := "flaky", onError := "skip" }] 0 .empty [] [] =
      addCall 0 (runFrom {} .empty (fun _ _ => .launchError "binary not found") (fun _ _ _ => []) [] 1 .empty [] [mkHookResult 0 "flaky" (-1) "skip" (TruncateStderr "binary not found" 512)])) ∧
    ((runFrom {} .empty (fun _ _ => .ok { exitCode := 2, stderr := "halt" }) (fun _ _ _ => []) [{ name := "flaky", onError := "skip" }] 0 .empty [] []).result.exitCode = 2 ∧
     (runFrom {} .empty (fun _ _ => .ok { exitCode := 2, stderr := "halt" }) (fun _ _ _ => []) [{ name := "flaky", onError := "skip" }] 0 .empty [] []).calls = [0]) := by
  constructor
  · have h := (onerror_skip_behavior {} .empty
      (fun _ _ => .launchError "binary not found") (fun _ _ _ => [])
      { name := "flaky", onError := "skip" } [] 0 .empty [] []
      (by decide) rfl).1 "binary not found" rfl
    simpa using h
  · exact (onerror_skip_behavior {} .empty
      (fun _ _ => .ok { exitCode := 2, stderr := "halt" }) (fun _ _ _ => [])
      { name := "flaky", onError := "skip" } [] 0 .empty [] []
      (by decide) rfl).2.2.2.1 { exitCode := 2, stderr := "halt" } rfl rfl

theorem recordAudit_some (f : ChainExecution → Bool) (input : Input)
    (chainLen : Nat) (outcome reason : String) (hookResults : List HookResult) :
    recordAudit (some f) input chainLen outcome reason hookResults =
      [{ eventName := input.hookEventName, toolName := input.toolName,
         toolDetail := extractToolDetail input, chainLen := chainLen,
         outcome := outcome, reason := reason,
         sessionID := input.sessionID, hooks := hookResults }] := rfl

theorem recordAudit_behavior_irrelevant (f g : ChainExecution → Bool) :
    recordAudit (some f) = recordAudit (some g) := by
  funext input chainLen outcome reason hookResults
  rfl

theorem runFrom_audits_length (input : Input) (orig : Raw)
    (ρ : Nat → Input → RunnerResponse)
    (recAud : String → String → List HookResult → List ChainExecution)
    (hrec : ∀ o r hs, (recAud o r hs).length = 1) :
    ∀ (hooks : List HookEntry) (i : Nat) (acc : Raw) (ctx : List String)
      (hrs : List HookResult),
      ((runFrom input orig ρ recAud hooks i acc ctx hrs).audits).length = 1 := by
  intro hooks
  induction hooks with
  | nil =>
      intro i acc ctx hrs
      simp only [runFrom]
      repeat' split
      all_goals exact hrec _ _ _
  | cons h t ih =>
      intro i acc ctx hrs
      simp only [runFrom]
      repeat' split
      all_goals first
        | exact hrec _ _ _
        | exact ih _ _ _ _

/-- C9: every invocation of Run attempts exactly one audit record, at the
terminal transition; the zero-hook case records outcome "allow" with chain
length 0; and the whole observable outcome — in particular the returned
Result — is identical whatever the Auditor's `RecordChain` returns, so an
auditor failure never changes the exit code or the output body. -/
theorem audit_exactly_once_and_result_independent :
    ∀ (input : Input) (hooks : List HookEntry)
      (ρ : Nat → Input → RunnerResponse) (f g : ChainExecution → Bool),
      (Run input hooks ρ (some f)).audits.length = 1 ∧
      Run input hooks ρ (some f) = Run input hooks ρ (some g) ∧
      (hooks = [] → (Run input hooks ρ (some f)).audits =
        [{ eventName := input.hookEventName, toolName := input.toolName,
           toolDetail := extractToolDetail input, chainLen := 0,
           outcome := "allow", reason := "",
           sessionID := input.sessionID, hooks := [] }]) := by
  intro input hooks ρ f g
  refine ⟨?_, ?_, ?_⟩
  · cases hooks with
    | nil => simp [Run, recordAudit_some]
    | cons h t =>
        simp only [Run]
        exact runFrom_audits_length input input.toolInput ρ
          (recordAudit (some f) input (h :: t).length)
          (fun o r hs => by rw [recordAudit_some]; rfl)
          (h :: t) 0 input.toolInput [] []
  · cases hooks with
    | nil => simp only [Run, recordAudit_behavior_irrelevant f g]
    | cons h t => simp only [Run, recordAudit_behavior_irrelevant f g]
  · intro he
    subst he
    simp [Run, recordAudit_some]

/-- Witness for C9: the zero-hook chain on the zero envelope. -/
theorem audit_exactly_once_and_result_independent_witness :
    (Run {} [] (fun _ _ => .ok { exitCode := 0 }) (some fun _ => true)).audits.length = 1 ∧
    Run {} [] (fun _ _ => .ok { exitCode := 0 }) (some fun _ => true) =
      Run {} [] (fun _ _ => .ok { exitCode := 0 }) (some fun _ => false) ∧
    (Run {} [] (fun _ _ => .ok { exitCode := 0 }) (some fun _ => true)).audits =
      [{ eventName := "", toolName := "", toolDetail := extractToolDetail {}, chainLen := 0, outcome := "allow", reason := "", sessionID := "", hooks := [] }] :=
  have h := audit_exactly_once_and_result_independent {} []
    (fun _ _ => .ok { exitCode := 0 }) (fun _ => true) (fun _ => false)
  ⟨h.1, h.2.1, h.2.2 rfl⟩

end HookChain
